import Mathlib

/-!
Shallow embedding of the core of the `sunbird` repository
(`sunbird/data/transforms.py`, `sunbird/read_utils/data_utils.py`,
`sunbird/summaries/bundle.py`) together with theorems settling the
frozen specification claims.

Modelling conventions:
* Python floats are modelled as exact real numbers (`ℝ`); float literals
  appearing in the source (`0.011`, `-30.0`, `0.5`) are modelled as the
  exact rationals they denote in the source text.
* Constructor/serialisation-level parameters are modelled as rationals
  (`ℚ`), which is faithful because every Python float is a rational and
  no arithmetic is performed on parameters during (de)serialisation.
* A Python exception is modelled by `Except PyError`.  The `PyError`
  enumeration also contains constructors for the error classes that the
  natural-language specification names (`missingParametersError`,
  `unknownTransformKindError`) so that claims about them can be stated;
  the embedded code itself never produces those two values, because no
  such classes exist anywhere in the repository.
* `numpy`/`xarray` arithmetic on whole arrays is modelled pointwise over
  flattened cell lists.
-/

namespace Sunbird

noncomputable section

/-- Python exception classes that the embedded code paths can raise, plus
the two error classes named by the specification (which do not exist in
the code and are never produced by the embedded definitions). -/
inductive PyError where
  | typeError
  | attributeError
  | keyError
  | missingParametersError
  | unknownTransformKindError
deriving DecidableEq, Repr

/-- A summary array (`xr.DataArray`) flattened to its list of cells in
row-major order.  Each cell carries its label on the `multipoles`
coordinate — the only coordinate that `transforms.py` ever addresses by
name — together with its numeric value. -/
abbrev Summary := List (Int × ℝ)

namespace Normalize

/-- Pointwise semantics of `Normalize.transform`
(`transforms.py` line 186): `(summary - training_min) / (training_max - training_min)`. -/
def transform (training_min training_max x : ℝ) : ℝ :=
  (x - training_min) / (training_max - training_min)

/-- Pointwise semantics of `Normalize.inverse_transform`
(`transforms.py` line 189): `summary * (training_max - training_min) + training_min`. -/
def inverse_transform (training_min training_max x : ℝ) : ℝ :=
  x * (training_max - training_min) + training_min

/-- Semantics of `Normalize.fit` in its `dimensions is None` branch
(`transforms.py` lines 173-175): `summary.min()` and `summary.max()`, the
global minimum and maximum over every cell of the fitting array.  The
`dimensions is not None` branch (per-coordinate reduction) is not needed
by any claim and is not modelled.  The empty array is never produced by
the loaders; the value on `[]` is junk. -/
def fit : List ℝ → ℝ × ℝ
  | [] => (0, 0)
  | x :: xs => (xs.foldl min x, xs.foldl max x)

end Normalize

namespace Standarize

/-- Pointwise semantics of `Standarize.transform` (`transforms.py`
line 226): `(summary - training_mean) / training_std`. -/
def transform (training_mean training_std x : ℝ) : ℝ :=
  (x - training_mean) / training_std

/-- Pointwise semantics of `Standarize.inverse_transform`
(`transforms.py` line 229): `summary * training_std + training_mean`. -/
def inverse_transform (training_mean training_std x : ℝ) : ℝ :=
  x * training_std + training_mean

end Standarize

namespace LogSqrt

/-- Action of `LogSqrt.transform` (`transforms.py` lines 248-263) on one
cell: the value at multipole label 0 is replaced by
`np.log10(value - min_monopole)`, the value at label 1 by
`(value - min_quadrupole) ** 0.5` (real power with exponent one half),
and every other cell is left unchanged.  The two in-place `.loc` writes
touch disjoint label sets, so the simultaneous pointwise map is exact. -/
def transformCell (min_monopole min_quadrupole : ℚ) (c : Int × ℝ) : Int × ℝ :=
  (c.1,
    if c.1 = 0 then Real.logb 10 (c.2 - (min_monopole : ℝ))
    else if c.1 = 1 then (c.2 - (min_quadrupole : ℝ)) ^ ((1 : ℝ) / 2)
    else c.2)

/-- Value-level semantics of `LogSqrt.transform` on a whole array. -/
def transform (min_monopole min_quadrupole : ℚ) (s : Summary) : Summary :=
  s.map (transformCell min_monopole min_quadrupole)

/-- Action of `LogSqrt.inverse_transform` (`transforms.py` lines 265-280)
on one cell: the value at multipole label 0 is replaced by
`10 ** (value + min_monopole)`, the value at label 1 by
`(value + min_quadrupole) ** 2`, every other cell is unchanged. -/
def inverseCell (min_monopole min_quadrupole : ℚ) (c : Int × ℝ) : Int × ℝ :=
  (c.1,
    if c.1 = 0 then (10 : ℝ) ^ (c.2 + (min_monopole : ℝ))
    else if c.1 = 1 then (c.2 + (min_quadrupole : ℝ)) ^ (2 : ℕ)
    else c.2)

/-- Value-level semantics of `LogSqrt.inverse_transform` on a whole array. -/
def inverse_transform (min_monopole min_quadrupole : ℚ) (s : Summary) : Summary :=
  s.map (inverseCell min_monopole min_quadrupole)

end LogSqrt

/-- One member of a `Transforms` pipeline, carrying its current parameter
values.  `normalize`/`standarize` hold `None`-able fitted parameters
(`Option ℚ`) and the `dimensions` constructor argument; `logSqrt` holds
its two fixed offsets; `other` stands for a non-transform object obtained
by `Transforms.from_file` through module attribute lookup (e.g. the name
`ABC` imported at the top of `transforms.py`). -/
inductive Member where
  | normalize (training_min training_max : Option ℚ) (dimensions : Option (List String))
  | standarize (training_mean training_std : Option ℚ) (dimensions : Option (List String))
  | logSqrt (min_monopole min_quadrupole : ℚ)
  | other (name : String)
deriving DecidableEq, Repr

namespace Member

/-- Behaviour of one member's `transform` call.  An unfit
`Normalize`/`Standarize` (a parameter still `None`) evaluates
`summary - None` or `None - training_min`, which raises Python's
`TypeError`; a non-transform object has no `transform` attribute and
raises `AttributeError`.  Fitted members compute their pointwise formula
(the scalar-parameter case: `fit` was called with `dimensions=None`, or
the parameters were restored from file; the `dimensions` field is not
read by `transform`). -/
def transform : Member → Summary → Except PyError Summary
  | .normalize (some mn) (some mx) _, s =>
      .ok (s.map fun c => (c.1, Normalize.transform (mn : ℝ) (mx : ℝ) c.2))
  | .normalize _ _ _, _ => .error .typeError
  | .standarize (some me) (some st) _, s =>
      .ok (s.map fun c => (c.1, Standarize.transform (me : ℝ) (st : ℝ) c.2))
  | .standarize _ _ _, _ => .error .typeError
  | .logSqrt m0 mq, s => .ok (LogSqrt.transform m0 mq s)
  | .other _, _ => .error .attributeError

/-- Behaviour of one member's `inverse_transform` call, mirroring
`Member.transform`. -/
def inverse_transform : Member → Summary → Except PyError Summary
  | .normalize (some mn) (some mx) _, s =>
      .ok (s.map fun c => (c.1, Normalize.inverse_transform (mn : ℝ) (mx : ℝ) c.2))
  | .normalize _ _ _, _ => .error .typeError
  | .standarize (some me) (some st) _, s =>
      .ok (s.map fun c => (c.1, Standarize.inverse_transform (me : ℝ) (st : ℝ) c.2))
  | .standarize _ _ _, _ => .error .typeError
  | .logSqrt m0 mq, s => .ok (LogSqrt.inverse_transform m0 mq s)
  | .other _, _ => .error .attributeError

end Member

namespace Transforms

/-- Sequential application of a list of member steps, aborting at the
first raised exception (Python exception propagation). -/
def applySeq (step : Member → Summary → Except PyError Summary) :
    List Member → Summary → Except PyError Summary
  | [], s => .ok s
  | m :: ms, s =>
      match step m s with
      | .ok s' => applySeq step ms s'
      | .error e => .error e

/-- Value-level semantics of `Transforms.transform` (`transforms.py`
lines 123-135): `summary = summary.copy()` (identity at the level of
values; the aliasing consequences are modelled separately by the heap
semantics below), then each member's `transform` in declaration order. -/
def transform (transforms : List Member) (s : Summary) : Except PyError Summary :=
  applySeq Member.transform transforms s

/-- Value-level semantics of `Transforms.inverse_transform`
(`transforms.py` lines 137-148): each member's `inverse_transform`, in
reverse order (`self.transforms[::-1]`), with no copy. -/
def inverse_transform (transforms : List Member) (s : Summary) : Except PyError Summary :=
  applySeq Member.inverse_transform transforms.reverse s

end Transforms

/-- One stored parameter set, i.e. one value of the pickled dictionary
written by `Transforms.store_transform_params` (`transforms.py`
lines 107-121): either the empty dict `{}` (members without a `fit`
attribute) or the `__dict__` of a `Normalize` / `Standarize` instance as
returned by `get_parameter_dict` (line 40). -/
inductive StoredParams where
  | empty
  | norm (training_min training_max : Option ℚ) (dimensions : Option (List String))
  | stand (training_mean training_std : Option ℚ) (dimensions : Option (List String))
deriving DecidableEq, Repr

namespace StoredParams

/-- Value bound to the keyword `training_min` when a stored dict is
splatted into a constructor call (`None`, i.e. `none`, when the key is
absent: the parameter keeps its default). -/
def training_minOf : StoredParams → Option ℚ
  | .norm mn _ _ => mn
  | _ => none

/-- Value bound to the keyword `training_max` on splatting. -/
def training_maxOf : StoredParams → Option ℚ
  | .norm _ mx _ => mx
  | _ => none

/-- Value bound to the keyword `training_mean` on splatting. -/
def training_meanOf : StoredParams → Option ℚ
  | .stand me _ _ => me
  | _ => none

/-- Value bound to the keyword `training_std` on splatting. -/
def training_stdOf : StoredParams → Option ℚ
  | .stand _ st _ => st
  | _ => none

/-- Value bound to the keyword `dimensions` on splatting. -/
def dimensionsOf : StoredParams → Option (List String)
  | .norm _ _ d => d
  | .stand _ _ d => d
  | .empty => none

end StoredParams

/-- The pickled parameter container: a Python dict from transform class
name to stored parameter set, modelled as an association list in the
dict's (insertion) order. -/
abbrev ParamDict := List (String × StoredParams)

/-- Python dict assignment `d[k] = v`: overwrite in place if the key is
already present (keeping its position), otherwise append. -/
def dictInsert (d : ParamDict) (k : String) (v : StoredParams) : ParamDict :=
  if k ∈ d.map Prod.fst then
    d.map fun e => if e.1 = k then (k, v) else e
  else d ++ [(k, v)]

namespace Member

/-- The member's `__class__.__name__`, used as the storage key. -/
def className : Member → String
  | .normalize _ _ _ => "Normalize"
  | .standarize _ _ _ => "Standarize"
  | .logSqrt _ _ => "LogSqrt"
  | .other n => n

/-- The value stored for this member by `store_transform_params`:
`get_parameter_dict()` (the instance `__dict__`) when the member has a
`fit` attribute (`Normalize`, `Standarize`), the empty dict otherwise
(`LogSqrt` defines no `fit`; neither does a non-transform object). -/
def storedParams : Member → StoredParams
  | .normalize mn mx d => .norm mn mx d
  | .standarize me st d => .stand me st d
  | .logSqrt _ _ => .empty
  | .other _ => .empty

end Member

/-- A fit-required member (`Normalize` / `Standarize`) whose parameters
are still `None`. -/
def Member.isUnfit : Member → Bool
  | .normalize mn mx _ => mn.isNone || mx.isNone
  | .standarize me st _ => me.isNone || st.isNone
  | _ => false

/-- Membership in one of the three transform classes of `transforms.py`
(as opposed to a non-transform object). -/
def Member.isTransformKind : Member → Bool
  | .other _ => false
  | _ => true

/-- A `Normalize` or `Standarize` member (the fit-requiring kinds, whose
`transform`/`inverse_transform` allocate fresh arrays). -/
def Member.isFitKind : Member → Bool
  | .normalize _ _ _ => true
  | .standarize _ _ _ => true
  | _ => false

namespace Transforms

/-- Semantics of `Transforms.store_transform_params` (`transforms.py`
lines 107-121): build a dict keyed by each member's class name (later
members of the same class silently overwrite earlier ones) and pickle
it.  File I/O is not modelled; the result is the pickled dict. -/
def store_transform_params (transforms : List Member) : ParamDict :=
  transforms.foldl (fun d m => dictInsert d m.className m.storedParams) []

/-- The top-level names of the module `sunbird.data.transforms` that the
`getattr(sys.modules[__name__], key)` lookup in `Transforms.from_file`
(line 81) can resolve: the names bound by its import statements and its
three class statements plus `BaseTransform` and `Transforms` themselves.
Python's implicit double-underscore module attributes (`__name__`, ...)
are outside the modelled scope; theorems about unknown identifiers
exclude such names explicitly. -/
def moduleAttrNames : List String :=
  ["ABC", "abstractmethod", "List", "Dict", "Optional", "xr", "np", "sys",
   "pickle", "BaseTransform", "Transforms", "Normalize", "Standarize", "LogSqrt"]

/-- Semantics of one iteration of the `from_file` loop (`transforms.py`
lines 79-82): `getattr(sys.modules[__name__], key)(**value)`.
* `"Normalize"` / `"Standarize"`: the constructor binds any matching
  keywords of the stored dict, leaves absent parameters at their `None`
  defaults, and swallows extras through `**kwargs`.
* `"LogSqrt"`: both offsets take their defaults `0.011` and `-30.0`
  (`transforms.py` lines 235-236); a stored dict never contains the
  keywords `min_monopole` / `min_quadrupole` because `store_transform_params`
  stores `{}` for members without `fit`.
* `"ABC"` with the empty dict: `ABC()` succeeds and yields a
  non-transform object.
* every other module attribute: the call raises `TypeError`
  (modules are not callable, `typing` generics and abstract classes
  cannot be instantiated, `Transforms`/`abstractmethod` miss their
  required positional argument, `ABC` rejects unexpected keywords).
* a name that is not a module attribute: `getattr` raises
  `AttributeError`. -/
def instantiate (key : String) (p : StoredParams) : Except PyError Member :=
  if key = "Normalize" then
    .ok (.normalize p.training_minOf p.training_maxOf p.dimensionsOf)
  else if key = "Standarize" then
    .ok (.standarize p.training_meanOf p.training_stdOf p.dimensionsOf)
  else if key = "LogSqrt" then
    .ok (.logSqrt (11 / 1000) (-30))
  else if key = "ABC" then
    (if p = .empty then .ok (.other "ABC") else .error .typeError)
  else if moduleAttrNames.contains key then
    .error .typeError
  else
    .error .attributeError

/-- Semantics of `Transforms.from_file` (`transforms.py` lines 66-85):
for each `(key, value)` of the unpickled dict in order, instantiate
`getattr(module, key)(**value)`; the first exception propagates. -/
def from_file : ParamDict → Except PyError (List Member)
  | [] => .ok []
  | (key, p) :: rest =>
      match instantiate key p with
      | .ok m =>
          match from_file rest with
          | .ok ms => .ok (m :: ms)
          | .error e => .error e
      | .error e => .error e

end Transforms

/-! Heap semantics for the aliasing behaviour of the pipeline.
Python objects live on a heap; a `Ref` is an index into it.  `Normalize`
and `Standarize` build fresh arrays (whole-array arithmetic allocates),
while `LogSqrt` writes into sub-regions of its argument through `.loc`
and returns the same object. -/

/-- The heap: allocated summary arrays, indexed by allocation order. -/
abbrev Heap := List Summary

/-- Heap-level behaviour of one member's `transform`: fresh allocation
for `Normalize`/`Standarize` (append, return the new index), in-place
`.loc` writes for `LogSqrt` (update the slot, return the same index),
exceptions as in the value semantics (heap unchanged). -/
def Member.transformHeap : Member → Heap → ℕ → Heap × Except PyError ℕ
  | .normalize (some mn) (some mx) _, h, r =>
      (h ++ [(h.getD r []).map fun c => (c.1, Normalize.transform (mn : ℝ) (mx : ℝ) c.2)],
       .ok h.length)
  | .normalize _ _ _, h, _ => (h, .error .typeError)
  | .standarize (some me) (some st) _, h, r =>
      (h ++ [(h.getD r []).map fun c => (c.1, Standarize.transform (me : ℝ) (st : ℝ) c.2)],
       .ok h.length)
  | .standarize _ _ _, h, _ => (h, .error .typeError)
  | .logSqrt m0 mq, h, r =>
      (h.set r (LogSqrt.transform m0 mq (h.getD r [])), .ok r)
  | .other _, h, _ => (h, .error .attributeError)

/-- Heap-level behaviour of one member's `inverse_transform`, mirroring
`Member.transformHeap`. -/
def Member.inverseHeap : Member → Heap → ℕ → Heap × Except PyError ℕ
  | .normalize (some mn) (some mx) _, h, r =>
      (h ++ [(h.getD r []).map fun c => (c.1, Normalize.inverse_transform (mn : ℝ) (mx : ℝ) c.2)],
       .ok h.length)
  | .normalize _ _ _, h, _ => (h, .error .typeError)
  | .standarize (some me) (some st) _, h, r =>
      (h ++ [(h.getD r []).map fun c => (c.1, Standarize.inverse_transform (me : ℝ) (st : ℝ) c.2)],
       .ok h.length)
  | .standarize _ _ _, h, _ => (h, .error .typeError)
  | .logSqrt m0 mq, h, r =>
      (h.set r (LogSqrt.inverse_transform m0 mq (h.getD r [])), .ok r)
  | .other _, h, _ => (h, .error .attributeError)

/-- Run a sequence of heap-level member steps; an exception aborts the
loop but the heap mutations already performed persist. -/
def runSteps (step : Member → Heap → ℕ → Heap × Except PyError ℕ) :
    List Member → Heap → ℕ → Heap × Except PyError ℕ
  | [], h, r => (h, .ok r)
  | m :: ms, h, r =>
      match step m h r with
      | (h', .ok r') => runSteps step ms h' r'
      | (h', .error e) => (h', .error e)

namespace Transforms

/-- Heap-level semantics of `Transforms.transform` (`transforms.py`
line 132): `summary = summary.copy()` allocates a fresh copy of the
caller's array, and the member loop runs on the copy. -/
def transformHeap (transforms : List Member) (h : Heap) (r : ℕ) :
    Heap × Except PyError ℕ :=
  runSteps Member.transformHeap transforms (h ++ [h.getD r []]) h.length

/-- Heap-level semantics of `Transforms.inverse_transform`
(`transforms.py` lines 137-148): no copy — the member loop starts on the
caller's own array, in reverse member order. -/
def inverse_transformHeap (transforms : List Member) (h : Heap) (r : ℕ) :
    Heap × Except PyError ℕ :=
  runSteps Member.inverseHeap transforms.reverse h r

end Transforms

/-! Coordinate arrays and the filter engine
(`sunbird/read_utils/data_utils.py`). -/

/-- A Python `slice(min, max)` object as built by
`transform_filters_to_slices` (`data_utils.py` lines 11-25). -/
structure PySlice where
  lo : ℚ
  hi : ℚ
deriving DecidableEq, Repr

/-- An `xr.DataArray` with named dimensions: the dimension names in axis
order, the coordinate labels of each dimension, and the cells, each
carrying its coordinate vector (aligned with `dims`) and its value, in
row-major order.  Coordinate labels are modelled as rationals (the
repository only selects/slices on numeric coordinates); cell values are
an arbitrary type, since the filter engine never inspects them. -/
structure CoordArray (α : Type) where
  dims : List String
  coords : List (String × List ℚ)
  cells : List (List ℚ × α)
deriving DecidableEq, Repr

/-- The coordinate label of a cell (with coordinate vector `vec`, under
dimension list `dims`) on the dimension named `d`. -/
def coordOf (dims : List String) (vec : List ℚ) (d : String) : Option ℚ :=
  match dims.indexOf? d with
  | some i => vec.get? i
  | none => none

namespace CoordArray

/-- Model of label selection `X.sel(d=vals)` with a list of labels, as
applied by `convert_to_summary`: keep the labels of dimension `d` that
occur in `vals`, and the cells whose `d`-coordinate occurs in `vals`.
`xarray` orders the result by the selection list; the repository always
passes selection lists in increasing coordinate order (e.g.
`multipoles=[0, 2]`, `quintiles=[0, 1, 3, 4]`), for which that order
coincides with the kept sublist order modelled here.
`convert_to_summary` only calls this for `d` among `dims`. -/
def selList (X : CoordArray α) (d : String) (vals : List ℚ) : CoordArray α :=
  { dims := X.dims
    coords := X.coords.map fun e =>
      if e.1 = d then (e.1, e.2.filter fun q => decide (q ∈ vals)) else e
    cells := X.cells.filter fun c =>
      match coordOf X.dims c.1 d with
      | some q => decide (q ∈ vals)
      | none => true }

/-- Model of label slicing `X.sel(d=slice(lo, hi))`: label-based slicing
on a (monotonically increasing, as in every coordinate built by
`read_statistic`) coordinate keeps the labels `l` with `lo ≤ l ≤ hi`,
both endpoints inclusive, in their original order. -/
def selSlice (X : CoordArray α) (d : String) (sl : PySlice) : CoordArray α :=
  { dims := X.dims
    coords := X.coords.map fun e =>
      if e.1 = d then (e.1, e.2.filter fun q => decide (sl.lo ≤ q ∧ q ≤ sl.hi)) else e
    cells := X.cells.filter fun c =>
      match coordOf X.dims c.1 d with
      | some q => decide (sl.lo ≤ q ∧ q ≤ sl.hi)
      | none => true }

end CoordArray

/-- A select filter specification: dimension name to list of exact
coordinate values. -/
abbrev SelectFilters := List (String × List ℚ)

/-- A slice filter specification: dimension name to `(min, max)` pair. -/
abbrev SliceFilters := List (String × (ℚ × ℚ))

/-- Semantics of `transform_filters_to_slices` (`data_utils.py`
lines 11-25): replace each `(min, max)` pair by `slice(min, max)`. -/
def transform_filters_to_slices (filters : SliceFilters) : List (String × PySlice) :=
  filters.map fun e => (e.1, ⟨e.2.1, e.2.2⟩)

/-- Sequential application of the surviving exact selections, i.e. the
`summary.sel(**select_filters)` call of `convert_to_summary`. -/
def applySelects (fs : SelectFilters) (X : CoordArray α) : CoordArray α :=
  fs.foldl (fun Y e => Y.selList e.1 e.2) X

/-- Sequential application of the surviving slices, i.e. the
`summary.sel(**slice_filters)` call of `convert_to_summary`. -/
def applySlices (fs : List (String × PySlice)) (X : CoordArray α) : CoordArray α :=
  fs.foldl (fun Y e => Y.selSlice e.1 e.2) X

/-- Semantics of `convert_to_summary` (`data_utils.py` lines 28-65):
keep only the filter entries whose dimension occurs in `dimensions`
(both specs; absent dimensions are silently dropped), build the
`DataArray`, apply the surviving exact selections with `.sel`, convert
the surviving range filters to slices and apply them with `.sel`.  The
Python truthiness guards (`if select_filters:`) are mirrored: `None` or
an empty dict skips the corresponding stage. -/
def convert_to_summary (data : List (List ℚ × α)) (dimensions : List String)
    (coords : List (String × List ℚ)) (select_filters : Option SelectFilters)
    (slice_filters : Option SliceFilters) : CoordArray α :=
  let sf : Option SelectFilters :=
    match select_filters with
    | none => none
    | some f =>
        if f = [] then some f
        else some (f.filter fun e => decide (e.1 ∈ dimensions))
  let slf : Option SliceFilters :=
    match slice_filters with
    | none => none
    | some f =>
        if f = [] then some f
        else some (f.filter fun e => decide (e.1 ∈ dimensions))
  let summary : CoordArray α := ⟨dimensions, coords, data⟩
  let summary :=
    match sf with
    | none => summary
    | some f => if f = [] then summary else applySelects f summary
  match slf with
  | none => summary
  | some f =>
      if f = [] then summary
      else applySlices (transform_filters_to_slices f) summary

/-! The `Bundle` aggregator (`sunbird/summaries/bundle.py`).  The
individual emulators (`TPCF`, `DensitySplitAuto`, `DensitySplitCross`)
are external collaborators, abstracted as a registry function from
summary name to a `forward` implementation; filters are passed through
unmodified, so their types are abstract. -/

/-- Model of `np.hstack` on a list of per-summary row blocks, each of
shape `(batch, ·)`: row `i` of the result is the concatenation of the
`i`-th rows of the blocks, in block order. -/
def hstack (blocks : List (List (List α))) (batch : ℕ) : List (List α) :=
  (List.range batch).map fun i => (blocks.map fun b => b.getD i []).flatten

/-- Semantics of `Bundle.forward` (`bundle.py` lines 27-49): for each
configured summary name in order, call that summary's own `forward` with
the same `inputs`, `select_filters` and `slice_filters`; reshape the
result to `(len(inputs), -1)` (flatten everything after the batch axis);
`np.hstack` the blocks.  `reg` models the `self.all_summaries` lookup,
each summary's output being a batch-indexed list of (already
row-major-flattened-to-rank-2) per-input tensors. -/
def Bundle.forward (reg : String → List ι → σ → τ → List (List (List α)))
    (summaries : List String) (inputs : List ι) (select_filters : σ)
    (slice_filters : τ) : List (List α) :=
  hstack (summaries.map fun name =>
      (reg name inputs select_filters slice_filters).map List.flatten)
    inputs.length

end

/-! Theorems. -/

/-- Helper: `getD` after `map`, inside the length. -/
theorem getD_map (f : α → β) (l : List α) (i : ℕ) (h : i < l.length) (d : α) (d' : β) :
    (l.map f).getD i d' = f (l.getD i d) := by
  induction l generalizing i with
  | nil => simp at h
  | cons x xs ih =>
      cases i with
      | zero => simp
      | succ j =>
          simp only [List.map_cons, List.getD_cons_succ]
          exact ih j (by simpa using h)

/-- C1: the round-trip law fails on the code for `LogSqrt` (and hence
for any pipeline containing it).  With the default parameters
`min_monopole = 0.011`, `min_quadrupole = -30.0`, the single-cell array
holding the quadrupole (multipole label 1) value `6.0` transforms to
`(6 - (-30)) ** 0.5 = 6.0`, and `inverse_transform` then yields
`(6 + (-30)) ** 2 = 576.0`, not the original `6.0`: `inverse_transform`
computes `(y + min) ** 2` where the inverse of `y = (x - min) ** 0.5`
is `y ** 2 + min` (and `10 ** (y + min)` where the inverse of
`y = log10(x - min)` is `10 ** y + min`), contradicting the code's own
docstring "Returns: original summary". -/
theorem logSqrt_roundtrip_fails :
    Transforms.transform [Member.logSqrt (11 / 1000) (-30)] [((1 : Int), (6 : ℝ))]
      = Except.ok [((1 : Int), (6 : ℝ))] ∧
    Transforms.inverse_transform [Member.logSqrt (11 / 1000) (-30)] [((1 : Int), (6 : ℝ))]
      = Except.ok [((1 : Int), (576 : ℝ))] ∧
    (576 : ℝ) ≠ 6 := by
  refine ⟨?_, ?_, by norm_num⟩
  · simp only [Transforms.transform, Transforms.applySeq, Member.transform,
      LogSqrt.transform, LogSqrt.transformCell, List.map_cons, List.map_nil]
    norm_num
    rw [← Real.sqrt_eq_rpow, show (36 : ℝ) = 6 ^ 2 by norm_num,
      Real.sqrt_sq (by norm_num)]
  · simp only [Transforms.inverse_transform, List.reverse_cons, List.reverse_nil,
      List.nil_append, Transforms.applySeq, Member.inverse_transform,
      LogSqrt.inverse_transform, LogSqrt.inverseCell, List.map_cons, List.map_nil]
    norm_num

/-- C2: `LogSqrt.transform` replaces each multipole-label-0 value `v`
by `log10(v - min_monopole)` and each label-1 value by
`(v - min_quadrupole) ** 0.5`, while `LogSqrt.inverse_transform`
replaces label-0 values by `10 ** (v + min_monopole)` and label-1
values by `(v + min_quadrupole) ** 2`; cells are transformed in place,
so position `i` of the output corresponds to position `i` of the
input. -/
theorem logSqrt_pointwise (m0 mq : ℚ) (s : Summary) (i : ℕ) (h : i < s.length) :
    ((s.getD i (0, 0)).1 = 0 →
      (LogSqrt.transform m0 mq s).getD i (0, 0)
        = ((0 : Int), Real.logb 10 ((s.getD i (0, 0)).2 - (m0 : ℝ))) ∧
      (LogSqrt.inverse_transform m0 mq s).getD i (0, 0)
        = ((0 : Int), (10 : ℝ) ^ ((s.getD i (0, 0)).2 + (m0 : ℝ)))) ∧
    ((s.getD i (0, 0)).1 = 1 →
      (LogSqrt.transform m0 mq s).getD i (0, 0)
        = ((1 : Int), ((s.getD i (0, 0)).2 - (mq : ℝ)) ^ ((1 : ℝ) / 2)) ∧
      (LogSqrt.inverse_transform m0 mq s).getD i (0, 0)
        = ((1 : Int), ((s.getD i (0, 0)).2 + (mq : ℝ)) ^ (2 : ℕ))) := by
  rw [LogSqrt.transform, LogSqrt.inverse_transform,
    getD_map _ _ _ h (0, 0), getD_map _ _ _ h (0, 0)]
  constructor
  · intro h0
    rw [LogSqrt.transformCell, LogSqrt.inverseCell, h0]
    simp
  · intro h1
    rw [LogSqrt.transformCell, LogSqrt.inverseCell, h1]
    simp

/-- Witness for C2 at a concrete input. -/
theorem logSqrt_pointwise_witness :
    (0 < ([((0 : Int), (5 : ℝ)), ((1 : Int), (7 : ℝ))] : Summary).length) ∧
    ((([((0 : Int), (5 : ℝ)), ((1 : Int), (7 : ℝ))] : Summary).getD 0 (0, 0)).1 = 0 →
      (LogSqrt.transform 1 2 [((0 : Int), (5 : ℝ)), ((1 : Int), (7 : ℝ))]).getD 0 (0, 0)
        = ((0 : Int), Real.logb 10
            ((([((0 : Int), (5 : ℝ)), ((1 : Int), (7 : ℝ))] : Summary).getD 0 (0, 0)).2
              - ((1 : ℚ) : ℝ))) ∧
      (LogSqrt.inverse_transform 1 2 [((0 : Int), (5 : ℝ)), ((1 : Int), (7 : ℝ))]).getD 0 (0, 0)
        = ((0 : Int), (10 : ℝ) ^
            ((([((0 : Int), (5 : ℝ)), ((1 : Int), (7 : ℝ))] : Summary).getD 0 (0, 0)).2
              + ((1 : ℚ) : ℝ)))) ∧
    ((([((0 : Int), (5 : ℝ)), ((1 : Int), (7 : ℝ))] : Summary).getD 0 (0, 0)).1 = 1 →
      (LogSqrt.transform 1 2 [((0 : Int), (5 : ℝ)), ((1 : Int), (7 : ℝ))]).getD 0 (0, 0)
        = ((1 : Int), ((([((0 : Int), (5 : ℝ)), ((1 : Int), (7 : ℝ))] : Summary).getD 0 (0, 0)).2
              - ((2 : ℚ) : ℝ)) ^ ((1 : ℝ) / 2)) ∧
      (LogSqrt.inverse_transform 1 2 [((0 : Int), (5 : ℝ)), ((1 : Int), (7 : ℝ))]).getD 0 (0, 0)
        = ((1 : Int), ((([((0 : Int), (5 : ℝ)), ((1 : Int), (7 : ℝ))] : Summary).getD 0 (0, 0)).2
              + ((2 : ℚ) : ℝ)) ^ (2 : ℕ))) :=
  ⟨by simp, logSqrt_pointwise 1 2 [((0 : Int), (5 : ℝ)), ((1 : Int), (7 : ℝ))] 0 (by simp)⟩

/-- Helper: a `min`-fold is at most its initial value. -/
theorem foldl_min_le_init {α : Type} [LinearOrder α] (xs : List α) (x : α) :
    xs.foldl min x ≤ x := by
  induction xs generalizing x with
  | nil => simp
  | cons a as ih => exact le_trans (ih (min x a)) (min_le_left x a)

/-- Helper: a `min`-fold is at most every list element. -/
theorem foldl_min_le_mem {α : Type} [LinearOrder α] (xs : List α) (x : α) :
    ∀ y ∈ xs, xs.foldl min x ≤ y := by
  induction xs generalizing x with
  | nil => simp
  | cons a as ih =>
      intro y hy
      rcases List.mem_cons.mp hy with rfl | hy
      · exact le_trans (foldl_min_le_init as (min x y)) (min_le_right x y)
      · exact ih (min x a) y hy

/-- Helper: a `min`-fold is the initial value or a list element. -/
theorem foldl_min_mem {α : Type} [LinearOrder α] (xs : List α) (x : α) :
    xs.foldl min x ∈ x :: xs := by
  induction xs generalizing x with
  | nil => simp
  | cons a as ih =>
      have h := ih (min x a)
      rw [List.foldl_cons]
      rcases List.mem_cons.mp h with h | h
      · rcases min_choice x a with hc | hc
        · rw [h, hc]; exact List.mem_cons_self _ _
        · rw [h, hc]; exact List.mem_cons_of_mem _ (List.mem_cons_self _ _)
      · exact List.mem_cons_of_mem _ (List.mem_cons_of_mem _ h)

/-- Helper: a `max`-fold is at least its initial value. -/
theorem le_foldl_max_init {α : Type} [LinearOrder α] (xs : List α) (x : α) :
    x ≤ xs.foldl max x := by
  induction xs generalizing x with
  | nil => simp
  | cons a as ih => exact le_trans (le_max_left x a) (ih (max x a))

/-- Helper: a `max`-fold is at least every list element. -/
theorem mem_le_foldl_max {α : Type} [LinearOrder α] (xs : List α) (x : α) :
    ∀ y ∈ xs, y ≤ xs.foldl max x := by
  induction xs generalizing x with
  | nil => simp
  | cons a as ih =>
      intro y hy
      rcases List.mem_cons.mp hy with rfl | hy
      · exact le_trans (le_max_right x y) (le_foldl_max_init as (max x y))
      · exact ih (max x a) y hy

/-- Helper: a `max`-fold is the initial value or a list element. -/
theorem foldl_max_mem {α : Type} [LinearOrder α] (xs : List α) (x : α) :
    xs.foldl max x ∈ x :: xs := by
  induction xs generalizing x with
  | nil => simp
  | cons a as ih =>
      have h := ih (max x a)
      rw [List.foldl_cons]
      rcases List.mem_cons.mp h with h | h
      · rcases max_choice x a with hc | hc
        · rw [h, hc]; exact List.mem_cons_self _ _
        · rw [h, hc]; exact List.mem_cons_of_mem _ (List.mem_cons_self _ _)
      · exact List.mem_cons_of_mem _ (List.mem_cons_of_mem _ h)

/-- C8: `Normalize` fitted with `dimensions=None` computes the global
minimum and maximum of the fitting array (the fit result is an attained
lower respectively upper bound of the cells); its `transform` is
`(x - min) / (max - min)` and its `inverse_transform` is
`x * (max - min) + min`; in particular fitting on data with `min = 1.0`
and `max = 3.0` gives `fit = (1, 3)`, `transform([1, 2, 3]) = [0, 0.5, 1]`
and `inverse_transform([0, 0.5, 1]) = [1, 2, 3]`. -/
theorem normalize_global_fit (l : List ℝ) (hl : l ≠ []) :
    ((Normalize.fit l).1 ∈ l ∧ ∀ x ∈ l, (Normalize.fit l).1 ≤ x) ∧
    ((Normalize.fit l).2 ∈ l ∧ ∀ x ∈ l, x ≤ (Normalize.fit l).2) ∧
    Normalize.fit [(1 : ℝ), 2, 3] = (1, 3) ∧
    ([(1 : ℝ), 2, 3]).map (Normalize.transform 1 3) = [0, 1 / 2, 1] ∧
    ([(0 : ℝ), 1 / 2, 1]).map (Normalize.inverse_transform 1 3) = [1, 2, 3] := by
  obtain ⟨x, xs, rfl⟩ : ∃ x xs, l = x :: xs := by
    cases l with
    | nil => exact absurd rfl hl
    | cons x xs => exact ⟨x, xs, rfl⟩
  refine ⟨⟨foldl_min_mem xs x, ?_⟩, ⟨foldl_max_mem xs x, ?_⟩, ?_, ?_, ?_⟩
  · intro y hy
    rcases List.mem_cons.mp hy with rfl | hy
    · exact foldl_min_le_init xs y
    · exact foldl_min_le_mem xs x y hy
  · intro y hy
    rcases List.mem_cons.mp hy with rfl | hy
    · exact le_foldl_max_init xs y
    · exact mem_le_foldl_max xs x y hy
  · norm_num [Normalize.fit, min_def, max_def]
  · norm_num [Normalize.transform]
  · norm_num [Normalize.inverse_transform]

/-- Witness for C8 at a concrete input. -/
theorem normalize_global_fit_witness :
    ([(1 : ℝ), 2, 3] : List ℝ) ≠ [] ∧
    (((Normalize.fit [(1 : ℝ), 2, 3]).1 ∈ [(1 : ℝ), 2, 3] ∧
        ∀ x ∈ [(1 : ℝ), 2, 3], (Normalize.fit [(1 : ℝ), 2, 3]).1 ≤ x) ∧
      ((Normalize.fit [(1 : ℝ), 2, 3]).2 ∈ [(1 : ℝ), 2, 3] ∧
        ∀ x ∈ [(1 : ℝ), 2, 3], x ≤ (Normalize.fit [(1 : ℝ), 2, 3]).2) ∧
      Normalize.fit [(1 : ℝ), 2, 3] = (1, 3) ∧
      ([(1 : ℝ), 2, 3]).map (Normalize.transform 1 3) = [0, 1 / 2, 1] ∧
      ([(0 : ℝ), 1 / 2, 1]).map (Normalize.inverse_transform 1 3) = [1, 2, 3]) :=
  ⟨by simp, normalize_global_fit [(1 : ℝ), 2, 3] (by simp)⟩

/-- Helper: an unfit fit-required member raises `TypeError` on
`transform` (operating on a `None` parameter). -/
theorem unfit_transform_typeError (m : Member) (hm : m.isUnfit = true) (s : Summary) :
    Member.transform m s = .error .typeError := by
  cases m with
  | normalize mn mx d =>
      cases mn with
      | none => rfl
      | some a =>
          cases mx with
          | none => rfl
          | some b => simp [Member.isUnfit] at hm
  | standarize me st d =>
      cases me with
      | none => rfl
      | some a =>
          cases st with
          | none => rfl
          | some b => simp [Member.isUnfit] at hm
  | logSqrt m0 mq => simp [Member.isUnfit] at hm
  | other n => simp [Member.isUnfit] at hm

/-- Helper: a transform-kind member either returns a value or raises
`TypeError`. -/
theorem transformKind_ok_or_typeError (m : Member) (hm : m.isTransformKind = true)
    (s : Summary) :
    (∃ s', Member.transform m s = .ok s') ∨ Member.transform m s = .error .typeError := by
  cases m with
  | normalize mn mx d =>
      cases mn with
      | none => exact Or.inr rfl
      | some a =>
          cases mx with
          | none => exact Or.inr rfl
          | some b => exact Or.inl ⟨_, rfl⟩
  | standarize me st d =>
      cases me with
      | none => exact Or.inr rfl
      | some a =>
          cases st with
          | none => exact Or.inr rfl
          | some b => exact Or.inl ⟨_, rfl⟩
  | logSqrt m0 mq => exact Or.inl ⟨_, rfl⟩
  | other n => simp [Member.isTransformKind] at hm

/-- C4 (corrected): a pipeline of transform-kind members containing a
fit-required member whose parameters are still `None` fails on
`transform` — but with Python's `TypeError` (raised by arithmetic on
`None`), not with a `MissingParametersError`, which does not exist in
the code. -/
theorem unfit_member_pipeline_raises (ms : List Member) (s : Summary) (m : Member)
    (hm : m ∈ ms) (hunfit : m.isUnfit = true)
    (hkinds : ∀ m' ∈ ms, m'.isTransformKind = true) :
    Transforms.transform ms s = .error .typeError := by
  induction ms generalizing s with
  | nil => simp at hm
  | cons m0 rest ih =>
      rcases List.mem_cons.mp hm with rfl | hm'
      · show Transforms.applySeq _ _ _ = _
        rw [Transforms.applySeq, unfit_transform_typeError m hunfit s]
      · show Transforms.applySeq _ _ _ = _
        rcases transformKind_ok_or_typeError m0 (hkinds m0 (List.mem_cons_self _ _)) s with
          ⟨s', hs'⟩ | herr
        · rw [Transforms.applySeq, hs']
          exact ih s' hm' fun m' h => hkinds m' (List.mem_cons_of_mem _ h)
        · rw [Transforms.applySeq, herr]

/-- Witness for C4 (corrected) at a concrete pipeline. -/
theorem unfit_member_pipeline_raises_witness :
    ((Member.normalize none none none) ∈ [Member.normalize none none none] ∧
      (Member.normalize none none none).isUnfit = true ∧
      (∀ m' ∈ [Member.normalize none none none], m'.isTransformKind = true)) ∧
    Transforms.transform [Member.normalize none none none] [((0 : Int), (1 : ℝ))]
      = .error .typeError :=
  ⟨⟨by decide, by decide, by decide⟩,
    unfit_member_pipeline_raises [Member.normalize none none none] [((0 : Int), (1 : ℝ))]
      (Member.normalize none none none) (by decide) (by decide) (by decide)⟩

/-- Counterexample for C4 as stated: the failure is a `TypeError`, not a
`MissingParametersError` (no such class exists in the repository). -/
theorem unfit_member_not_missingParametersError :
    Transforms.transform [Member.normalize none none none] [((0 : Int), (1 : ℝ))]
      = .error .typeError ∧
    Transforms.transform [Member.normalize none none none] [((0 : Int), (1 : ℝ))]
      ≠ .error .missingParametersError := by
  refine ⟨rfl, ?_⟩
  simp [Transforms.transform, Transforms.applySeq, Member.transform]

/-- Helper: `getattr` on a name that is not a module attribute raises
`AttributeError` inside `instantiate`. -/
theorem instantiate_unknown (key : String) (p : StoredParams)
    (hkey : Transforms.moduleAttrNames.contains key = false) :
    Transforms.instantiate key p = .error .attributeError := by
  have h1 : ¬ key = "Normalize" := by rintro rfl; exact absurd hkey (by decide)
  have h2 : ¬ key = "Standarize" := by rintro rfl; exact absurd hkey (by decide)
  have h3 : ¬ key = "LogSqrt" := by rintro rfl; exact absurd hkey (by decide)
  have h4 : ¬ key = "ABC" := by rintro rfl; exact absurd hkey (by decide)
  rw [Transforms.instantiate, if_neg h1, if_neg h2, if_neg h3, if_neg h4,
    if_neg (show ¬Transforms.moduleAttrNames.contains key = true by rw [hkey]; simp)]

/-- Helper: an identifier naming one of the three transform classes
always instantiates successfully. -/
theorem instantiate_kind_ok (key : String) (p : StoredParams)
    (hkey : key = "Normalize" ∨ key = "Standarize" ∨ key = "LogSqrt") :
    ∃ m, Transforms.instantiate key p = .ok m := by
  rcases hkey with rfl | rfl | rfl
  · exact ⟨_, rfl⟩
  · exact ⟨_, rfl⟩
  · exact ⟨_, rfl⟩

/-- C5 (corrected): `from_file` looks each stored identifier up among
the module's top-level names via `getattr`; when an identifier is not
such a name (and is not one of Python's implicit double-underscore
module attributes, which are outside the modelled scope), the lookup
fails with `AttributeError` — not with an `UnknownTransformKindError`,
which does not exist in the code.  Identifiers that do name module
attributes are not checked against the transform kinds at all. -/
theorem from_file_unknown_raises (pre : ParamDict) (key : String) (p : StoredParams)
    (rest : ParamDict)
    (hpre : ∀ e ∈ pre, e.1 = "Normalize" ∨ e.1 = "Standarize" ∨ e.1 = "LogSqrt")
    (hkey : Transforms.moduleAttrNames.contains key = false)
    (hdunder : key.data.take 2 ≠ ['_', '_']) :
    Transforms.from_file (pre ++ (key, p) :: rest) = .error .attributeError := by
  induction pre with
  | nil =>
      rw [List.nil_append, Transforms.from_file, instantiate_unknown key p hkey]
  | cons e pre' ih =>
      obtain ⟨m, hm⟩ := instantiate_kind_ok e.1 e.2 (hpre e (List.mem_cons_self _ _))
      have ih' := ih fun e' h => hpre e' (List.mem_cons_of_mem _ h)
      rw [List.cons_append, Transforms.from_file, hm, ih']

/-- Witness for C5 (corrected) at a concrete stored container. -/
theorem from_file_unknown_raises_witness :
    ((∀ e ∈ ([("LogSqrt", StoredParams.empty)] : ParamDict),
        e.1 = "Normalize" ∨ e.1 = "Standarize" ∨ e.1 = "LogSqrt") ∧
      Transforms.moduleAttrNames.contains "Foo" = false ∧
      "Foo".data.take 2 ≠ ['_', '_']) ∧
    Transforms.from_file [("LogSqrt", StoredParams.empty), ("Foo", StoredParams.empty)]
      = .error .attributeError :=
  ⟨⟨by decide, by decide, by decide⟩,
    from_file_unknown_raises [("LogSqrt", StoredParams.empty)] "Foo" StoredParams.empty []
      (by decide) (by decide) (by decide)⟩

/-- Counterexample for C5 as stated: an unrecognized identifier makes
`from_file` fail with `AttributeError`, not `UnknownTransformKindError`. -/
theorem from_file_unknown_not_unknownTransformKindError :
    Transforms.from_file [("Foo", StoredParams.empty)] = .error .attributeError ∧
    Transforms.from_file [("Foo", StoredParams.empty)]
      ≠ .error .unknownTransformKindError := by
  refine ⟨rfl, ?_⟩
  intro h
  rw [show Transforms.from_file [("Foo", StoredParams.empty)]
      = Except.error PyError.attributeError from rfl] at h
  simp at h

/-- Helper: folding dict insertions of pairwise-distinct keys over an
accumulator disjoint from them just appends the entries in order. -/
theorem foldl_dictInsert_nodup (ms : List Member) :
    ∀ acc : ParamDict, (ms.map Member.className).Nodup →
      (∀ m ∈ ms, m.className ∉ acc.map Prod.fst) →
      ms.foldl (fun d m => dictInsert d m.className m.storedParams) acc
        = acc ++ ms.map fun m => (m.className, m.storedParams) := by
  induction ms with
  | nil => intro acc _ _; simp
  | cons m rest ih =>
      intro acc hnd hdisj
      rw [List.foldl_cons, dictInsert,
        if_neg (hdisj m (List.mem_cons_self _ _))]
      rw [List.map_cons, List.nodup_cons] at hnd
      rw [ih (acc ++ [(m.className, m.storedParams)]) hnd.2 ?_]
      · simp
      · intro m' hm'
        rw [List.map_append]
        intro hmem
        rcases List.mem_append.mp hmem with h | h
        · exact hdisj m' (List.mem_cons_of_mem _ hm') h
        · simp only [List.map_cons, List.map_nil, List.mem_singleton] at h
          exact hnd.1 (h ▸ List.mem_map_of_mem Member.className hm')

/-- Helper: `from_file` inverts the per-member storage map, member by
member, for transform-kind members whose `LogSqrt` offsets are the
constructor defaults. -/
theorem from_file_of_map (ms : List Member)
    (hls : ∀ m0 mq, Member.logSqrt m0 mq ∈ ms → m0 = 11 / 1000 ∧ mq = -30)
    (hkind : ∀ m ∈ ms, m.isTransformKind = true) :
    Transforms.from_file (ms.map fun m => (m.className, m.storedParams)) = .ok ms := by
  induction ms with
  | nil => rfl
  | cons m rest ih =>
      have hrest := ih (fun m0 mq h => hls m0 mq (List.mem_cons_of_mem _ h))
        (fun m' h => hkind m' (List.mem_cons_of_mem _ h))
      have hm : Transforms.instantiate m.className m.storedParams = .ok m := by
        cases m with
        | normalize mn mx d => rfl
        | standarize me st d => rfl
        | logSqrt m0 mq =>
            obtain ⟨h0, hq⟩ := hls m0 mq (List.mem_cons_self _ _)
            subst h0; subst hq; rfl
        | other n => simpa [Member.isTransformKind] using hkind _ (List.mem_cons_self _ _)
      rw [List.map_cons, Transforms.from_file, hm, hrest]

/-- C3 (corrected): storing a pipeline's parameters and reloading with
`from_file` reconstructs the original pipeline exactly — hence a
pipeline with identical `transform`/`inverse_transform` behaviour on
every array, with `fit` never called — provided the members' class
names are pairwise distinct (the storage dict is keyed by class name,
so a duplicated kind is silently collapsed) and every `LogSqrt` member
uses the default offsets (fit-free members are stored as the empty dict
`{}`, so non-default constructor arguments are lost on reload). -/
theorem store_then_from_file_roundtrip (ms : List Member)
    (hnd : (ms.map Member.className).Nodup)
    (hls : ∀ m0 mq, Member.logSqrt m0 mq ∈ ms → m0 = 11 / 1000 ∧ mq = -30)
    (hkind : ∀ m ∈ ms, m.isTransformKind = true) :
    Transforms.from_file (Transforms.store_transform_params ms) = .ok ms := by
  rw [Transforms.store_transform_params,
    foldl_dictInsert_nodup ms [] hnd (by simp), List.nil_append]
  exact from_file_of_map ms hls hkind

/-- Witness for C3 (corrected) at a concrete pipeline. -/
theorem store_then_from_file_roundtrip_witness :
    ((([Member.normalize (some 1) (some 3) none,
          Member.logSqrt (11 / 1000) (-30)].map Member.className).Nodup) ∧
      (∀ m0 mq, Member.logSqrt m0 mq ∈
          [Member.normalize (some 1) (some 3) none, Member.logSqrt (11 / 1000) (-30)] →
          m0 = 11 / 1000 ∧ mq = -30) ∧
      (∀ m ∈ [Member.normalize (some 1) (some 3) none, Member.logSqrt (11 / 1000) (-30)],
          m.isTransformKind = true)) ∧
    Transforms.from_file (Transforms.store_transform_params
        [Member.normalize (some 1) (some 3) none, Member.logSqrt (11 / 1000) (-30)])
      = .ok [Member.normalize (some 1) (some 3) none, Member.logSqrt (11 / 1000) (-30)] :=
  ⟨⟨by decide, by intro m0 mq h; simp at h; exact ⟨h.1, h.2⟩, by decide⟩,
    store_then_from_file_roundtrip
      [Member.normalize (some 1) (some 3) none, Member.logSqrt (11 / 1000) (-30)]
      (by decide) (by intro m0 mq h; simp at h; exact ⟨h.1, h.2⟩) (by decide)⟩

/-- Counterexample for C3 as stated: a pipeline whose `LogSqrt` member
was constructed with a non-default `min_quadrupole = 1.0` stores as the
empty dict, reloads with the default `-30.0`, and the reloaded pipeline
transforms the quadrupole value `2.0` to `sqrt 32` instead of the
original pipeline's `1.0`. -/
theorem store_then_from_file_not_equivalent :
    Transforms.from_file (Transforms.store_transform_params [Member.logSqrt (11 / 1000) 1])
      = .ok [Member.logSqrt (11 / 1000) (-30)] ∧
    Transforms.transform [Member.logSqrt (11 / 1000) 1] [((1 : Int), (2 : ℝ))]
      = .ok [((1 : Int), (1 : ℝ))] ∧
    Transforms.transform [Member.logSqrt (11 / 1000) (-30)] [((1 : Int), (2 : ℝ))]
      = .ok [((1 : Int), Real.sqrt 32)] ∧
    Real.sqrt 32 ≠ 1 := by
  refine ⟨rfl, ?_, ?_, by simp [Real.sqrt_eq_one]⟩
  · simp only [Transforms.transform, Transforms.applySeq, Member.transform,
      LogSqrt.transform, LogSqrt.transformCell, List.map_cons, List.map_nil]
    norm_num
  · simp only [Transforms.transform, Transforms.applySeq, Member.transform,
      LogSqrt.transform, LogSqrt.transformCell, List.map_cons, List.map_nil]
    norm_num
    rw [← Real.sqrt_eq_rpow]

/-- Helper: `convert_to_summary` in normal form — the Python truthiness
guards (`if select_filters:`) are semantically transparent, because
applying an empty filter dict is the identity. -/
theorem convert_eq_normal {α : Type} (data : List (List ℚ × α)) (dims : List String)
    (coords : List (String × List ℚ)) (sf : Option SelectFilters)
    (slf : Option SliceFilters) :
    convert_to_summary data dims coords sf slf
      = applySlices (transform_filters_to_slices
            ((slf.getD []).filter fun e => decide (e.1 ∈ dims)))
          (applySelects ((sf.getD []).filter fun e => decide (e.1 ∈ dims))
            ⟨dims, coords, data⟩) := by
  have hsel : ∀ (X : CoordArray α) (f : SelectFilters),
      (if f = [] then X else applySelects f X) = applySelects f X := by
    intro X f
    by_cases hf : f = [] <;> simp [hf, applySelects]
  have hsli : ∀ (X : CoordArray α) (f : SliceFilters),
      (if f = [] then X else applySlices (transform_filters_to_slices f) X)
        = applySlices (transform_filters_to_slices f) X := by
    intro X f
    by_cases hf : f = [] <;> simp [hf, applySlices, transform_filters_to_slices]
  cases sf with
  | none =>
      cases slf with
      | none => rfl
      | some g =>
          by_cases hg : g = []
          · subst hg; rfl
          · simp only [convert_to_summary, if_neg hg, Option.getD_some, hsli]
            rfl
  | some f =>
      by_cases hf : f = []
      · subst hf
        cases slf with
        | none => rfl
        | some g =>
            by_cases hg : g = []
            · subst hg; rfl
            · simp only [convert_to_summary, if_neg hg, Option.getD_some, hsli]
              rfl
      · cases slf with
        | none =>
            simp only [convert_to_summary, if_neg hf, Option.getD_some, hsel]
            rfl
        | some g =>
            by_cases hg : g = []
            · subst hg
              simp only [convert_to_summary, if_neg hf, Option.getD_some, hsel]
              rfl
            · simp only [convert_to_summary, if_neg hf, if_neg hg, Option.getD_some,
                hsel, hsli]

/-- C6: a filter entry whose dimension name is absent from the array is
silently ignored by `convert_to_summary`: the result equals the result
for the same specification with that entry removed (for both the exact
selection spec and the range slicing spec), and no error is raised (the
model is a total function; the entry is dropped before any `.sel`
call). -/
theorem absent_dimension_filter_ignored {α : Type} (data : List (List ℚ × α))
    (dims : List String) (coords : List (String × List ℚ))
    (sf1 sf2 : SelectFilters) (slf1 slf2 : SliceFilters)
    (sfo : Option SelectFilters) (slfo : Option SliceFilters)
    (d : String) (vals : List ℚ) (lo hi : ℚ) (hd : d ∉ dims) :
    convert_to_summary data dims coords (some (sf1 ++ (d, vals) :: sf2)) slfo
      = convert_to_summary data dims coords (some (sf1 ++ sf2)) slfo ∧
    convert_to_summary data dims coords sfo (some (slf1 ++ (d, (lo, hi)) :: slf2))
      = convert_to_summary data dims coords sfo (some (slf1 ++ slf2)) := by
  constructor
  · rw [convert_eq_normal, convert_eq_normal]
    simp [List.filter_append, List.filter_cons, hd]
  · rw [convert_eq_normal, convert_eq_normal]
    simp [List.filter_append, List.filter_cons, hd]

/-- Witness for C6 at a concrete array and filter specification. -/
theorem absent_dimension_filter_ignored_witness :
    ("z" ∉ ["x", "y"]) ∧
    (convert_to_summary [([1, 1], (10 : ℤ)), ([2, 1], 20)] ["x", "y"] [("x", [1, 2]), ("y", [1])]
        (some ([("x", [1])] ++ ("z", [5]) :: [])) (some [("y", (0, 1))])
      = convert_to_summary [([1, 1], (10 : ℤ)), ([2, 1], 20)] ["x", "y"]
          [("x", [1, 2]), ("y", [1])] (some ([("x", [1])] ++ [])) (some [("y", (0, 1))]) ∧
    convert_to_summary [([1, 1], (10 : ℤ)), ([2, 1], 20)] ["x", "y"] [("x", [1, 2]), ("y", [1])]
        (some [("x", [1])]) (some ([] ++ ("z", (0, 5)) :: [("y", (0, 1))]))
      = convert_to_summary [([1, 1], (10 : ℤ)), ([2, 1], 20)] ["x", "y"]
          [("x", [1, 2]), ("y", [1])] (some [("x", [1])]) (some ([] ++ [("y", (0, 1))]))) :=
  ⟨by decide,
    absent_dimension_filter_ignored [([1, 1], (10 : ℤ)), ([2, 1], 20)] ["x", "y"]
      [("x", [1, 2]), ("y", [1])] [("x", [1])] [] [] [("y", (0, 1))]
      (some [("x", [1])]) (some [("y", (0, 1))]) "z" [5] 0 5 (by decide)⟩

/-- Helper: on a dimension that is present, a single slice filter
reduces to `selSlice` on the constructed array. -/
theorem convert_slice_single {α : Type} (data : List (List ℚ × α)) (dims : List String)
    (coords : List (String × List ℚ)) (d : String) (lo hi : ℚ) (hd : d ∈ dims) :
    convert_to_summary data dims coords none (some [(d, (lo, hi))])
      = CoordArray.selSlice ⟨dims, coords, data⟩ d ⟨lo, hi⟩ := by
  rw [convert_eq_normal]
  simp [applySelects, applySlices, transform_filters_to_slices, hd]

/-- C7: slicing a present dimension with `(min, max)` keeps exactly the
coordinate labels `l` with `min ≤ l ≤ max` (both endpoints inclusive,
via `transform_filters_to_slices` and label-based `.sel`), preserving
the axis itself (`dims` unchanged), the relative order of the remaining
cells (a sublist of the original cells) and the relative order of the
remaining labels (a sublist of the original labels).  The sortedness
hypothesis records the modelling domain: label slicing acts on a
monotonically increasing coordinate, as produced by `read_statistic`. -/
theorem slice_filter_inclusive {α : Type} (data : List (List ℚ × α))
    (dims : List String) (coords : List (String × List ℚ)) (d : String)
    (lo hi : ℚ) (hd : d ∈ dims)
    (hsorted : ∀ ls, (d, ls) ∈ coords → ls.Sorted (· ≤ ·)) :
    (convert_to_summary data dims coords none (some [(d, (lo, hi))])).dims = dims ∧
    (∀ c, c ∈ (convert_to_summary data dims coords none (some [(d, (lo, hi))])).cells ↔
        (c ∈ data ∧ ∀ q, coordOf dims c.1 d = some q → (lo ≤ q ∧ q ≤ hi))) ∧
    (convert_to_summary data dims coords none (some [(d, (lo, hi))])).cells.Sublist data ∧
    (∀ ls, (d, ls) ∈ coords →
        (d, ls.filter fun q => decide (lo ≤ q ∧ q ≤ hi))
            ∈ (convert_to_summary data dims coords none (some [(d, (lo, hi))])).coords ∧
        (∀ q, q ∈ ls.filter (fun q => decide (lo ≤ q ∧ q ≤ hi)) ↔
            (q ∈ ls ∧ lo ≤ q ∧ q ≤ hi)) ∧
        (ls.filter fun q => decide (lo ≤ q ∧ q ≤ hi)).Sublist ls) := by
  rw [convert_slice_single data dims coords d lo hi hd]
  refine ⟨rfl, ?_, List.filter_sublist _, ?_⟩
  · intro c
    rw [CoordArray.selSlice]
    simp only [List.mem_filter]
    constructor
    · rintro ⟨hc, hp⟩
      refine ⟨hc, ?_⟩
      intro q hq
      rw [hq] at hp
      simpa using hp
    · rintro ⟨hc, hp⟩
      refine ⟨hc, ?_⟩
      cases hq : coordOf dims c.1 d with
      | none => simp [hq]
      | some q => simpa [hq] using hp q hq
  · intro ls hls
    refine ⟨?_, ?_, List.filter_sublist _⟩
    · rw [CoordArray.selSlice]
      have := List.mem_map_of_mem
        (fun e : String × List ℚ =>
          if e.1 = d then (e.1, e.2.filter fun q => decide (lo ≤ q ∧ q ≤ hi)) else e) hls
      simpa using this
    · intro q
      simp [List.mem_filter]

/-- Witness for C7 at a concrete array. -/
theorem slice_filter_inclusive_witness :
    ("s" ∈ ["s"] ∧ (∀ ls, ("s", ls) ∈ [("s", [(1 : ℚ), 2, 3])] → ls.Sorted (· ≤ ·))) ∧
    ((convert_to_summary [([1], (10 : ℤ)), ([2], 20), ([3], 30)] ["s"]
        [("s", [(1 : ℚ), 2, 3])] none (some [("s", (1, 2))])).dims = ["s"] ∧
    (∀ c, c ∈ (convert_to_summary [([1], (10 : ℤ)), ([2], 20), ([3], 30)] ["s"]
        [("s", [(1 : ℚ), 2, 3])] none (some [("s", (1, 2))])).cells ↔
        (c ∈ [([1], (10 : ℤ)), ([2], 20), ([3], 30)] ∧
          ∀ q, coordOf ["s"] c.1 "s" = some q → ((1 : ℚ) ≤ q ∧ q ≤ 2))) ∧
    (convert_to_summary [([1], (10 : ℤ)), ([2], 20), ([3], 30)] ["s"]
        [("s", [(1 : ℚ), 2, 3])] none (some [("s", (1, 2))])).cells.Sublist
      [([1], (10 : ℤ)), ([2], 20), ([3], 30)] ∧
    (∀ ls, ("s", ls) ∈ [("s", [(1 : ℚ), 2, 3])] →
        ("s", ls.filter fun q => decide ((1 : ℚ) ≤ q ∧ q ≤ 2))
            ∈ (convert_to_summary [([1], (10 : ℤ)), ([2], 20), ([3], 30)] ["s"]
                [("s", [(1 : ℚ), 2, 3])] none (some [("s", (1, 2))])).coords ∧
        (∀ q, q ∈ ls.filter (fun q => decide ((1 : ℚ) ≤ q ∧ q ≤ 2)) ↔
            (q ∈ ls ∧ (1 : ℚ) ≤ q ∧ q ≤ 2)) ∧
        (ls.filter fun q => decide ((1 : ℚ) ≤ q ∧ q ≤ 2)).Sublist ls)) :=
  ⟨⟨by decide, by intro ls h; simp at h; subst h; decide⟩,
    slice_filter_inclusive [([1], (10 : ℤ)), ([2], 20), ([3], 30)] ["s"]
      [("s", [(1 : ℚ), 2, 3])] "s" 1 2 (by decide)
      (by intro ls h; simp at h; subst h; decide)⟩

/-- Helper: row `i` of an `hstack` is the concatenation of the `i`-th
rows of the blocks. -/
theorem hstack_getD {α : Type} (blocks : List (List (List α))) (batch i : ℕ)
    (hi : i < batch) :
    (hstack blocks batch).getD i [] = (blocks.map fun b => b.getD i []).flatten := by
  rw [hstack, getD_map _ _ i (by simpa) 0]
  have hr : (List.range batch).getD i 0 = i := by
    rw [List.getD_eq_getElem?_getD, List.getElem?_range hi, Option.getD_some]
  rw [hr]

/-- C9: `Bundle.forward` invokes each configured summary's `forward`
with the same inputs and filters, in the configured order, reshapes
each result to `(batch, -1)` and concatenates along the feature axis:
the output has one row per input; each output row's width is the sum,
over the configured summaries in order, of that summary's per-row
flattened width; and the first block of columns equals the flattened
result of calling the first summary alone. -/
theorem bundle_forward_concat {ι σ τ α : Type}
    (reg : String → List ι → σ → τ → List (List (List α)))
    (first : String) (rest : List String) (inputs : List ι) (sf : σ) (slf : τ)
    (hb : ∀ n ∈ first :: rest, (reg n inputs sf slf).length = inputs.length) :
    (Bundle.forward reg (first :: rest) inputs sf slf).length = inputs.length ∧
    (∀ i, i < inputs.length →
      ((Bundle.forward reg (first :: rest) inputs sf slf).getD i []).length
        = ((first :: rest).map fun n =>
            ((reg n inputs sf slf).getD i []).flatten.length).sum) ∧
    (∀ i, i < inputs.length →
      ((Bundle.forward reg (first :: rest) inputs sf slf).getD i []).take
          ((reg first inputs sf slf).getD i []).flatten.length
        = ((reg first inputs sf slf).getD i []).flatten) := by
  have hrow : ∀ i, i < inputs.length →
      (Bundle.forward reg (first :: rest) inputs sf slf).getD i []
        = ((first :: rest).map fun n => ((reg n inputs sf slf).getD i []).flatten).flatten := by
    intro i hi
    rw [Bundle.forward, hstack_getD _ _ i hi, List.map_map]
    congr 1
    apply List.map_congr_left
    intro n hn
    show ((reg n inputs sf slf).map List.flatten).getD i []
      = ((reg n inputs sf slf).getD i []).flatten
    exact getD_map List.flatten (reg n inputs sf slf) i (by rw [hb n hn]; exact hi) [] []
  refine ⟨by simp [Bundle.forward, hstack], ?_, ?_⟩
  · intro i hi
    rw [hrow i hi, List.length_flatten, List.map_map]
    rfl
  · intro i hi
    rw [hrow i hi, List.map_cons, List.flatten_cons, List.take_left]

/-- Witness for C9 at a concrete registry of two summaries. -/
theorem bundle_forward_concat_witness :
    (∀ n ∈ ["tpcf", "ds"],
      ((fun (n : String) (_ : List Unit) (_ : Unit) (_ : Unit) =>
          if n = "tpcf" then [[[(1 : ℤ), 2]], [[3, 4]]] else [[[5], [6]], [[7], [8]]])
          n [(), ()] () ()).length = ([(), ()] : List Unit).length) ∧
    ((Bundle.forward
        (fun (n : String) (_ : List Unit) (_ : Unit) (_ : Unit) =>
          if n = "tpcf" then [[[(1 : ℤ), 2]], [[3, 4]]] else [[[5], [6]], [[7], [8]]])
        ["tpcf", "ds"] [(), ()] () ()).length = ([(), ()] : List Unit).length ∧
    (∀ i, i < ([(), ()] : List Unit).length →
      ((Bundle.forward
          (fun (n : String) (_ : List Unit) (_ : Unit) (_ : Unit) =>
            if n = "tpcf" then [[[(1 : ℤ), 2]], [[3, 4]]] else [[[5], [6]], [[7], [8]]])
          ["tpcf", "ds"] [(), ()] () ()).getD i []).length
        = (["tpcf", "ds"].map fun n =>
            (((fun (n : String) (_ : List Unit) (_ : Unit) (_ : Unit) =>
                if n = "tpcf" then [[[(1 : ℤ), 2]], [[3, 4]]] else [[[5], [6]], [[7], [8]]])
                n [(), ()] () ()).getD i []).flatten.length).sum) ∧
    (∀ i, i < ([(), ()] : List Unit).length →
      ((Bundle.forward
          (fun (n : String) (_ : List Unit) (_ : Unit) (_ : Unit) =>
            if n = "tpcf" then [[[(1 : ℤ), 2]], [[3, 4]]] else [[[5], [6]], [[7], [8]]])
          ["tpcf", "ds"] [(), ()] () ()).getD i []).take
          (((fun (n : String) (_ : List Unit) (_ : Unit) (_ : Unit) =>
              if n = "tpcf" then [[[(1 : ℤ), 2]], [[3, 4]]] else [[[5], [6]], [[7], [8]]])
              "tpcf" [(), ()] () ()).getD i []).flatten.length
        = (((fun (n : String) (_ : List Unit) (_ : Unit) (_ : Unit) =>
            if n = "tpcf" then [[[(1 : ℤ), 2]], [[3, 4]]] else [[[5], [6]], [[7], [8]]])
            "tpcf" [(), ()] () ()).getD i []).flatten)) :=
  ⟨by decide,
    bundle_forward_concat
      (fun (n : String) (_ : List Unit) (_ : Unit) (_ : Unit) =>
        if n = "tpcf" then [[[(1 : ℤ), 2]], [[3, 4]]] else [[[5], [6]], [[7], [8]]])
      "tpcf" ["ds"] [(), ()] () () (by decide)⟩

/-- Helper: `getD` on an extended list, inside the original length. -/
theorem getD_append_lt {α : Type} (l l' : List α) (d : α) (i : ℕ) (h : i < l.length) :
    (l ++ l').getD i d = l.getD i d := by
  induction l generalizing i with
  | nil => simp at h
  | cons x xs ih =>
      cases i with
      | zero => simp
      | succ j =>
          simp only [List.cons_append, List.getD_cons_succ]
          exact ih j (by simpa using h)

/-- Helper: `getD` at a just-`set` index. -/
theorem getD_set_self {α : Type} (l : List α) (i : ℕ) (v d : α) (h : i < l.length) :
    (l.set i v).getD i d = v := by
  induction l generalizing i with
  | nil => simp at h
  | cons x xs ih =>
      cases i with
      | zero => rfl
      | succ j =>
          simp only [List.set_cons_succ, List.getD_cons_succ]
          exact ih j (by simpa using h)

/-- Helper: `getD` away from a `set` index. -/
theorem getD_set_ne {α : Type} (l : List α) (i j : ℕ) (v d : α) (h : i ≠ j) :
    (l.set j v).getD i d = l.getD i d := by
  induction l generalizing i j with
  | nil => rfl
  | cons x xs ih =>
      cases j with
      | zero =>
          cases i with
          | zero => exact absurd rfl h
          | succ k => rfl
      | succ j' =>
          cases i with
          | zero => rfl
          | succ k =>
              simp only [List.set_cons_succ, List.getD_cons_succ]
              exact ih k j' fun hk => h (by rw [hk])

/-- Helper: each heap-level member step only grows the heap, only writes
(at most) the slot it was handed, and returns either its argument
reference or a freshly allocated one. -/
theorem transformHeap_step_props (m : Member) (h : Heap) (r : ℕ) :
    (h.length ≤ (Member.transformHeap m h r).1.length ∧
      (∀ i, i ≠ r → i < h.length →
        (Member.transformHeap m h r).1.getD i [] = h.getD i []) ∧
      (∀ r', (Member.transformHeap m h r).2 = .ok r' → (r' = r ∨ r' = h.length))) ∧
    (h.length ≤ (Member.inverseHeap m h r).1.length ∧
      (∀ i, i ≠ r → i < h.length →
        (Member.inverseHeap m h r).1.getD i [] = h.getD i []) ∧
      (∀ r', (Member.inverseHeap m h r).2 = .ok r' → (r' = r ∨ r' = h.length))) := by
  cases m with
  | normalize mn mx d =>
      cases mn with
      | none => exact ⟨⟨le_refl _, fun i _ _ => rfl, fun r' hr' => by cases hr'⟩,
          le_refl _, fun i _ _ => rfl, fun r' hr' => by cases hr'⟩
      | some a =>
          cases mx with
          | none => exact ⟨⟨le_refl _, fun i _ _ => rfl, fun r' hr' => by cases hr'⟩,
              le_refl _, fun i _ _ => rfl, fun r' hr' => by cases hr'⟩
          | some b =>
              refine ⟨⟨by simp [Member.transformHeap], ?_, ?_⟩,
                by simp [Member.inverseHeap], ?_, ?_⟩
              · intro i _ hi
                exact getD_append_lt _ _ [] i hi
              · intro r' hr'
                exact Or.inr (Except.ok.inj hr').symm
              · intro i _ hi
                exact getD_append_lt _ _ [] i hi
              · intro r' hr'
                exact Or.inr (Except.ok.inj hr').symm
  | standarize me st d =>
      cases me with
      | none => exact ⟨⟨le_refl _, fun i _ _ => rfl, fun r' hr' => by cases hr'⟩,
          le_refl _, fun i _ _ => rfl, fun r' hr' => by cases hr'⟩
      | some a =>
          cases st with
          | none => exact ⟨⟨le_refl _, fun i _ _ => rfl, fun r' hr' => by cases hr'⟩,
              le_refl _, fun i _ _ => rfl, fun r' hr' => by cases hr'⟩
          | some b =>
              refine ⟨⟨by simp [Member.transformHeap], ?_, ?_⟩,
                by simp [Member.inverseHeap], ?_, ?_⟩
              · intro i _ hi
                exact getD_append_lt _ _ [] i hi
              · intro r' hr'
                exact Or.inr (Except.ok.inj hr').symm
              · intro i _ hi
                exact getD_append_lt _ _ [] i hi
              · intro r' hr'
                exact Or.inr (Except.ok.inj hr').symm
  | logSqrt m0 mq =>
      refine ⟨⟨by simp [Member.transformHeap], ?_, ?_⟩,
        by simp [Member.inverseHeap], ?_, ?_⟩
      · intro i hir _
        exact getD_set_ne _ i r _ [] hir
      · intro r' hr'
        exact Or.inl (Except.ok.inj hr').symm
      · intro i hir _
        exact getD_set_ne _ i r _ [] hir
      · intro r' hr'
        exact Or.inl (Except.ok.inj hr').symm
  | other n =>
      exact ⟨⟨le_refl _, fun i _ _ => rfl, fun r' hr' => by cases hr'⟩,
        le_refl _, fun i _ _ => rfl, fun r' hr' => by cases hr'⟩

/-- Helper: running member steps started on a reference at or above `n`
never changes any heap slot below `n` (new references are the argument
reference or freshly allocated, hence also at or above `n`). -/
theorem runSteps_frame
    (step : Member → Heap → ℕ → Heap × Except PyError ℕ)
    (hstep : ∀ m h r,
      h.length ≤ (step m h r).1.length ∧
      (∀ i, i ≠ r → i < h.length → (step m h r).1.getD i [] = h.getD i []) ∧
      (∀ r', (step m h r).2 = .ok r' → (r' = r ∨ r' = h.length)))
    (ms : List Member) :
    ∀ (h : Heap) (r n : ℕ), n ≤ r → n ≤ h.length →
      ∀ i, i < n → (runSteps step ms h r).1.getD i [] = h.getD i [] := by
  induction ms with
  | nil => intro h r n _ _ i _; rfl
  | cons m rest ih =>
      intro h r n hnr hnh i hin
      obtain ⟨hlen, hpres, href⟩ := hstep m h r
      have hpi : (step m h r).1.getD i [] = h.getD i [] :=
        hpres i (Nat.ne_of_lt (lt_of_lt_of_le hin hnr)) (lt_of_lt_of_le hin hnh)
      rw [runSteps]
      rcases hp : step m h r with ⟨h', res⟩
      rw [hp] at hlen hpi href
      cases res with
      | ok r' =>
          have hr' : n ≤ r' := by
            rcases href r' rfl with rfl | rfl
            · exact hnr
            · exact hnh
          rw [ih h' r' n hr' (le_trans hnh hlen) i hin, hpi]
      | error e => exact hpi

/-- Helper: fit-kind members (`Normalize`/`Standarize`) never write to
existing heap slots during `inverse_transform`; they only allocate or
raise. -/
theorem runSteps_fitKind_preserves (ms : List Member)
    (hfit : ∀ m ∈ ms, m.isFitKind = true) :
    ∀ (h : Heap) (r i : ℕ), i < h.length →
      (runSteps Member.inverseHeap ms h r).1.getD i [] = h.getD i [] := by
  induction ms with
  | nil => intro h r i _; rfl
  | cons m rest ih =>
      intro h r i hi
      have ihr := ih fun m' hm' => hfit m' (List.mem_cons_of_mem _ hm')
      cases m with
      | normalize mn mx d =>
          cases mn with
          | none => rfl
          | some a =>
              cases mx with
              | none => rfl
              | some b =>
                  rw [runSteps]
                  show (runSteps Member.inverseHeap rest (h ++ [_]) h.length).1.getD i []
                    = h.getD i []
                  rw [ihr (h ++ [_]) h.length i (by simp; omega),
                    getD_append_lt _ _ [] i hi]
      | standarize me st d =>
          cases me with
          | none => rfl
          | some a =>
              cases st with
              | none => rfl
              | some b =>
                  rw [runSteps]
                  show (runSteps Member.inverseHeap rest (h ++ [_]) h.length).1.getD i []
                    = h.getD i []
                  rw [ihr (h ++ [_]) h.length i (by simp; omega),
                    getD_append_lt _ _ [] i hi]
      | logSqrt m0 mq =>
          exact absurd (hfit _ (List.mem_cons_self _ _)) (by simp [Member.isFitKind])
      | other n =>
          exact absurd (hfit _ (List.mem_cons_self _ _)) (by simp [Member.isFitKind])

/-- C10 (corrected): `Transforms.transform` copies its input array
before applying the members, so the array the caller passed in is
unchanged after the call, for every pipeline; `Transforms.inverse_transform`
performs no copy, and it overwrites the caller's array through the
in-place `.loc` writes of a `LogSqrt` member whenever that member is
reached while the running object is still the caller's array — in
particular, for every pipeline whose last member is a `LogSqrt`
preceded by any fit-kind members, the caller's array afterwards holds
that `LogSqrt`'s inverse values. -/
theorem transform_copies_trailing_logSqrt_inverse_mutates
    (ms fits : List Member) (m0 mq : ℚ) (h : Heap) (r : ℕ) (hr : r < h.length)
    (hfits : ∀ m ∈ fits, m.isFitKind = true) :
    (Transforms.transformHeap ms h r).1.getD r [] = h.getD r [] ∧
    (Transforms.inverse_transformHeap (fits ++ [Member.logSqrt m0 mq]) h r).1.getD r []
      = LogSqrt.inverse_transform m0 mq (h.getD r []) := by
  constructor
  · rw [Transforms.transformHeap,
      runSteps_frame Member.transformHeap
        (fun m h' r' => (transformHeap_step_props m h' r').1) ms
        (h ++ [h.getD r []]) h.length h.length (le_refl _) (by simp) r hr,
      getD_append_lt _ _ [] r hr]
  · rw [Transforms.inverse_transformHeap, List.reverse_append, List.reverse_singleton,
      List.singleton_append, runSteps]
    show (runSteps Member.inverseHeap fits.reverse
        (h.set r (LogSqrt.inverse_transform m0 mq (h.getD r []))) r).1.getD r []
      = LogSqrt.inverse_transform m0 mq (h.getD r [])
    rw [runSteps_fitKind_preserves fits.reverse
        (fun m hm => hfits m (List.mem_reverse.mp hm)) _ r r (by simpa using hr),
      getD_set_self _ r _ [] hr]

/-- Witness for C10 (corrected) at a concrete heap and pipeline. -/
theorem transform_copies_trailing_logSqrt_inverse_mutates_witness :
    ((0 : ℕ) < ([[((1 : Int), (6 : ℝ))]] : Heap).length ∧
      (∀ m ∈ [Member.normalize (some 0) (some 1) none], m.isFitKind = true)) ∧
    ((Transforms.transformHeap [Member.logSqrt (11 / 1000) (-30)]
          [[((1 : Int), (6 : ℝ))]] 0).1.getD 0 []
        = ([[((1 : Int), (6 : ℝ))]] : Heap).getD 0 [] ∧
      (Transforms.inverse_transformHeap
          ([Member.normalize (some 0) (some 1) none] ++ [Member.logSqrt (11 / 1000) (-30)])
          [[((1 : Int), (6 : ℝ))]] 0).1.getD 0 []
        = LogSqrt.inverse_transform (11 / 1000) (-30)
            (([[((1 : Int), (6 : ℝ))]] : Heap).getD 0 [])) :=
  ⟨⟨by decide, by decide⟩,
    transform_copies_trailing_logSqrt_inverse_mutates
      [Member.logSqrt (11 / 1000) (-30)] [Member.normalize (some 0) (some 1) none]
      (11 / 1000) (-30) [[((1 : Int), (6 : ℝ))]] 0 (by decide) (by decide)⟩

/-- Counterexample for C10 as stated: a pipeline that does contain a
`LogSqrt` member but whose last member is a `Normalize` leaves the
caller's array unchanged under `inverse_transform` — the `Normalize`
inverse (applied first, in reverse order) allocates a fresh array, and
the `LogSqrt` in-place writes then hit only that fresh array. -/
theorem pipeline_with_logSqrt_inverse_no_mutation :
    (Transforms.inverse_transformHeap
        [Member.logSqrt (11 / 1000) (-30), Member.normalize (some 0) (some 1) none]
        [[((1 : Int), (6 : ℝ))]] 0).1.getD 0 []
      = [((1 : Int), (6 : ℝ))] := by
  rfl

end Sunbird
